import Mathlib

/-
Verification of the orchestration core of the customer-chatbot backend
(`src/api/app/simple_foundry_orchestrator.py`).

The development shallowly embeds:
  * the intent classifier `SimpleFoundryOrchestrator._determine_target_agent`
    (regex scoring over fixed pattern sets plus override phrases);
  * the conversation-thread cache (`ThreadCache`, a `cachetools.TTLCache`
    subclass; the superclass implementation is an external dependency not
    present in the repository, so its TTL/LRU mechanics are modelled from the
    specification, §4.1);
  * the `respond` coordination procedure (configuration short-circuit, agent
    resolution, thread-cache lookup, stream draining, response shaping, and
    top-level exception conversion).

Python strings are modelled as Lean `String` / `List Char`; machine-level
details (unicode case folding beyond `Char.toLower`, the exact unicode
whitespace set) are approximated by Lean's ASCII-oriented primitives, which
agree with Python on the ASCII inputs the routing vocabulary consists of.
-/

/-! ## Intent classifier (`_determine_target_agent`, lines 155-204)

The source uses `re.search` with patterns of the shape
`\b(alt1|alt2|...)\b`, where each alternative is a sequence of literal
segments separated by `.*`.  We embed exactly that pattern class: a branch is
a list of literal segments (the `.*` gaps between consecutive segments match
any characters other than a newline, as Python's `.` does), and the whole
branch is bracketed by word boundaries `\b`.  Every segment in the source
patterns begins and ends with a letter, so the boundary test reduces to the
adjacent character being a non-word character (or the string edge). -/

/-- Python's `\w` word-character class (ASCII fragment): letters, digits, `_`. -/
def isWordChar (c : Char) : Bool := c.isAlphanum || c == '_'

/-- Does the first list occur as a prefix of the second? -/
def begMatch : List Char → List Char → Bool
  | [], _ => true
  | _ :: _, [] => false
  | a :: as, b :: bs => a == b && begMatch as bs

/-- Wordness of the first character of a suffix (`false` at the string edge). -/
def headIsWord : List Char → Bool
  | [] => false
  | c :: _ => isWordChar c

/-- `\b` holds between a previous character of wordness `prevW` and suffix `l`. -/
def atBoundary (prevW : Bool) (l : List Char) : Bool := prevW != headIsWord l

/-- Scan a `.*` gap: succeed if the continuation `k` accepts some suffix of
`l` whose preceding gap contains no `'\n'` (Python's `.` excludes newlines). -/
def scanGap (k : List Char → Bool) : List Char → Bool
  | [] => k []
  | c :: rest => k (c :: rest) || (c != '\n' && scanGap k rest)

/-- Match the remainder of a branch, `.* s1 .* s2 ... .* sk \b`, against the
suffix `l`. -/
def tailMatch : List (List Char) → List Char → Bool
  | [], l =>
    (match l with
     | [] => true
     | c :: _ => !isWordChar c)
  | s :: ss, l =>
    scanGap (fun m => begMatch s m && tailMatch ss (m.drop s.length)) l

/-- Match one branch `s0 .* s1 ... .* sk \b` anchored at the start of `l`
(the leading `\b` is checked by the searcher). -/
def branchAt : List (List Char) → List Char → Bool
  | [], l =>
    (match l with
     | [] => true
     | c :: _ => !isWordChar c)
  | s :: ss, l => begMatch s l && tailMatch ss (l.drop s.length)

/-- `re.search` for a single branch: try every position of the string, with
the `\b` before the branch evaluated from the previous character. -/
def searchB (br : List (List Char)) : Bool → List Char → Bool
  | prevW, [] => atBoundary prevW [] && branchAt br []
  | prevW, c :: rest =>
    (atBoundary prevW (c :: rest) && branchAt br (c :: rest))
    || searchB br (isWordChar c) rest

/-- `re.search(r'\b(br1|br2|...)\b', l) is not None`. -/
def reSearch (branches : List (List (List Char))) (l : List Char) : Bool :=
  branches.any (fun br => searchB br false l)

/-- A single-word branch of a pattern. -/
def W (s : String) : List (List Char) := [s.data]

/-- A two-segment branch `a.*b` of a pattern. -/
def W2 (a b : String) : List (List Char) := [a.data, b.data]

/-- `product_patterns` (source lines 160-167), one entry per regex. -/
def productPatterns : List (List (List (List Char))) :=
  [ [W "paint", W "color", W "blue", W "red", W "green", W "white", W "black",
     W "shade", W "tone", W "finish"],
    [W "product", W "item", W "buy", W "purchase", W "price", W "cost"],
    [W2 "what" "offer", W2 "show" "product", W2 "find" "paint"],
    [W2 "match" "color", W2 "color" "match", W "sample"],
    [W "recommend", W "suggest", W2 "help" "choose"],
    [W "interior", W "exterior", W "primer", W "coating"] ]

/-- `policy_patterns` (source lines 170-177), one entry per regex. -/
def policyPatterns : List (List (List (List Char))) :=
  [ [W "return", W "refund", W "exchange", W "policy", W "warranty"],
    [W "problem", W "issue", W "complaint", W "damaged", W "leaking"],
    [W "ship", W "delivery", W "shipping", W "track"],
    [W "help", W "support", W "contact", W "customer service"],
    [W "guarantee", W "coverage", W "defect"],
    [W "cancel", W2 "order" "status", W "tracking"] ]

/-- `sum(1 for pattern in patterns if re.search(pattern, query_lower))`. -/
def countMatches (pats : List (List (List (List Char)))) (l : List Char) : Nat :=
  (pats.filter (fun p => reSearch p l)).length

/-- Python's substring test `needle in haystack`. -/
def containsSeg (needle : List Char) : List Char → Bool
  | [] => begMatch needle []
  | c :: rest => begMatch needle (c :: rest) || containsSeg needle rest

/-- The strong product phrases of source line 186. -/
def overrideProductPhrases : List (List Char) :=
  ["what products".data, "what do you offer".data, "show me products".data]

/-- The strong policy phrases of source line 190. -/
def overridePolicyPhrases : List (List Char) :=
  ["return policy".data, "warranty".data, "refund".data, "damaged".data]

/-- `any(phrase in query_lower for phrase in phrases)`. -/
def hasAnyPhrase (phs : List (List Char)) (l : List Char) : Bool :=
  phs.any (fun p => containsSeg p l)

/-- `user_text.lower()`, viewed as a character list. -/
def lowerChars (s : String) : List Char := s.data.map Char.toLower

/-- `SimpleFoundryOrchestrator._determine_target_agent` (lines 155-204). -/
def determineTargetAgent (user_text : String) : String :=
  let query_lower := lowerChars user_text
  let product_score := countMatches productPatterns query_lower
  let policy_score := countMatches policyPatterns query_lower
  if hasAnyPhrase overrideProductPhrases query_lower then "ProductLookupAgent"
  else if hasAnyPhrase overridePolicyPhrases query_lower then "KnowledgeAgent"
  else if product_score > policy_score then "ProductLookupAgent"
  else if policy_score > 0 then "KnowledgeAgent"
  else "ProductLookupAgent"

/-! ## Conversation-thread cache

The orchestrator constructs `ThreadCache(maxsize=1000, ttl=3600.0)` (source
line 79).  `ThreadCache` subclasses `cachetools.TTLCache`, overriding
`expire` and `popitem` only to invoke a release action (a log call) on each
removed `(key, thread_id)` pair, wrapped per item in `try/except` so a
failing release action is swallowed.

Modelled from the spec: the `cachetools.TTLCache` superclass is an external
dependency whose implementation is not part of the repository, so the
TTL/LRU mechanics below follow §4.1 of the specification: entries carry
their insertion time; an operation first purges every entry whose age has
reached the TTL (release action on each), `get` marks the found entry
most-recently-used, and a `put` that would exceed capacity evicts the
least-recently-used live entry first.  Recency is the list order: the head
is the least recently used entry, the tail the most recently used. -/

/-- A cache entry `(key, thread handle, insertion time)`; a bounded
time-expiring store with its capacity and time-to-live (seconds). -/
structure Cache where
  entries : List (String × String × Nat)
  maxsize : Nat
  ttl : Nat

/-- An entry is live at `now` while its age is strictly below the TTL. -/
def entryLive (ttl now : Nat) (e : String × String × Nat) : Bool :=
  now < e.2.2 + ttl

/-- `put(key, handle)`: purge expired entries, then insert or overwrite,
evicting the least-recently-used live entry when at capacity.  Returns the
new cache and the removed `(key, handle)` pairs, purges first and the
eviction (if any) last. -/
def Cache.put (c : Cache) (now : Nat) (k v : String) : Cache × List (String × String) :=
  let live := c.entries.filter (entryLive c.ttl now)
  let expired := (c.entries.filter (fun e => !entryLive c.ttl now e)).map (fun e => (e.1, e.2.1))
  if live.any (fun e => e.1 == k) then
    ⟨{ c with entries := live.filter (fun e => e.1 != k) ++ [(k, v, now)] }, expired⟩
  else if c.maxsize ≤ live.length then
    match live with
    | [] => ⟨{ c with entries := [(k, v, now)] }, expired⟩
    | lru :: rest => ⟨{ c with entries := rest ++ [(k, v, now)] }, expired ++ [(lru.1, lru.2.1)]⟩
  else
    ⟨{ c with entries := live ++ [(k, v, now)] }, expired⟩

/-- `get(key)`: purge expired entries, then look the key up; a found entry
is returned and marked most-recently-used.  Also returns the removed
`(key, handle)` pairs. -/
def Cache.getFull (c : Cache) (now : Nat) (k : String) :
    Option String × Cache × List (String × String) :=
  let live := c.entries.filter (entryLive c.ttl now)
  let expired := (c.entries.filter (fun e => !entryLive c.ttl now e)).map (fun e => (e.1, e.2.1))
  match live.find? (fun e => e.1 == k) with
  | some e => ⟨some e.2.1, { c with entries := live.filter (fun e2 => e2.1 != k) ++ [e] }, expired⟩
  | none => ⟨none, { c with entries := live }, expired⟩

/-- From src (`ThreadCache.expire` / `ThreadCache.popitem`, lines 25-42):
run the release action on each removed pair's thread handle; each call is
wrapped in `try/except`, so a raised error is recorded (logged) and the
remaining items are still processed.  Returns, per removed handle, the
handle and the captured error (if the action raised). -/
def runReleaseHooks (hook : String → Except String Unit) :
    List (String × String) → List (String × Option String)
  | [] => []
  | p :: rest =>
    ⟨p.2, match hook p.2 with
          | .ok _ => none
          | .error e => some e⟩ :: runReleaseHooks hook rest

/-- `put` as performed through `ThreadCache`: the cache update plus the
release action (with per-item exception capture) on every removed entry. -/
def Cache.putH (c : Cache) (hook : String → Except String Unit) (now : Nat) (k v : String) :
    Cache × List (String × Option String) :=
  let r := c.put now k v
  (r.1, runReleaseHooks hook r.2)

/-- `get` as performed through `ThreadCache`, with the release action run on
every removed entry. -/
def Cache.getH (c : Cache) (hook : String → Except String Unit) (now : Nat) (k : String) :
    Option String × Cache × List (String × Option String) :=
  let r := c.getFull now k
  (r.1, r.2.1, runReleaseHooks hook r.2.2)

/-- The cache the orchestrator constructs:
`ThreadCache(maxsize=1000, ttl=3600.0)` (source line 79). -/
def initThreadCache : Cache := ⟨[], 1000, 3600⟩

/-- Raw association lookup (first entry with the key), ignoring expiry. -/
def lookupVal (c : Cache) (k : String) : Option String :=
  (c.entries.find? (fun e => e.1 == k)).map (fun e => e.2.1)

/-! ## The `respond` procedure (lines 206-268)

The external agent invocation (`agent.invoke(messages=user_text,
thread=thread)`) is the opaque collaborator: it is passed in as a function
from the user text and the optional prior thread handle to the finite
sequence of messages it yielded, together with the exception it raised after
those yields, if any.  The agent registry is modelled by the list of agent
names that were successfully built (`self.agents` keys); the agent objects
themselves play no role in the control flow being verified. -/

/-- One streamed message: `content` and `thread` attributes (absent
attributes and `None` both map to `none`; the thread value is the
`thread.id` string). -/
structure Msg where
  content : Option String
  thread : Option String
deriving DecidableEq

/-- Outcome of draining `agent.invoke`: the messages yielded before the
stream ended, and the exception message if it ended by raising. -/
structure InvokeResult where
  msgs : List Msg
  raised : Option String

/-- The response dictionary: error payloads carry only `error` and `text`,
modelled by `messages = []` and `awaiting_user = false` for absent keys. -/
structure Response where
  text : String
  messages : List String
  awaiting_user : Bool
  error : Option String
deriving DecidableEq

/-- The error-shaped response `{"error": e, "text": t}`. -/
def errorResponse (e t : String) : Response := ⟨t, [], false, some e⟩

/-- Python truthiness of a string: non-empty. -/
def strTruthy (s : String) : Bool := s != ""

/-- Python truthiness of an optional string. -/
def optStrTruthy : Option String → Bool
  | none => false
  | some s => strTruthy s

/-- `f"{conversation_id}_{target_agent_name}"` (source lines 232, 246). -/
def cacheKey (c target : String) : String := c ++ "_" ++ target

/-- Python `str.strip()`: drop whitespace from both ends. -/
def pyStrip (l : List Char) : List Char :=
  ((l.dropWhile Char.isWhitespace).reverse.dropWhile Char.isWhitespace).reverse

/-- `response_content.strip().endswith("?")` (source line 253). -/
def stripEndsWithQ (s : String) : Bool :=
  match (pyStrip s.data).getLast? with
  | some c => c == '?'
  | none => false

/-- The loop of source lines 240-247: accumulate truthy `content` fragments
in arrival order and write each truthy `thread` id to the cache under the
conversation key. -/
def drainLoop (conversation_id : Option String) (target : String) (now : Nat) :
    List Msg → String → Cache → String × Cache
  | [], acc, cache => (acc, cache)
  | m :: rest, acc, cache =>
    let acc' := match m.content with
      | some s => if strTruthy s then acc ++ s else acc
      | none => acc
    let cache' := match conversation_id, m.thread with
      | some cid, some tid =>
        if strTruthy cid then (cache.put now (cacheKey cid target) tid).1 else cache
      | _, _ => cache
    drainLoop conversation_id target now rest acc' cache'

/-- The concatenation, in arrival order, of the truthy content fragments. -/
def concatContents : List Msg → String
  | [] => ""
  | m :: rest =>
    match m.content with
    | some s => if strTruthy s then s ++ concatContents rest else concatContents rest
    | none => concatContents rest

/-- The last truthy-thread id of the stream (the final cache write). -/
def lastThreadId : List Msg → Option String
  | [] => none
  | m :: rest =>
    match lastThreadId rest with
    | some t => some t
    | none => m.thread

/-- Orchestrator state: the registry of successfully built agent names, the
configuration flag, and the thread cache. -/
structure Orch where
  agents : List String
  is_configured : Bool
  thread_cache : Cache

/-- Observable outcome of one `respond` call: the response value, the new
thread-cache state, and the thread argument passed to the agent invocation
(`none` when no invocation was attempted). -/
structure RespondOut where
  resp : Response
  cache : Cache
  threadArg : Option (Option String)

/-- `SimpleFoundryOrchestrator.respond` (lines 206-268).  `invoke` is the
external agent invocation, as a function of the user text and the thread
argument; `now` is the clock reading for cache operations.  The `history`
parameter of the source is unused there and omitted here. -/
def respond (st : Orch) (invoke : String → Option String → InvokeResult)
    (now : Nat) (user_text : String) (conversation_id : Option String) : RespondOut :=
  if !st.is_configured then
    ⟨errorResponse "Simple Foundry orchestrator not configured"
       "I'm sorry, the AI service is not properly configured.",
     st.thread_cache, none⟩
  else
    let target_agent_name := determineTargetAgent user_text
    if !(st.agents.contains target_agent_name) then
      ⟨errorResponse ("Agent " ++ target_agent_name ++ " not available")
         ("I'm sorry, the " ++ target_agent_name ++ " is not currently available."),
       st.thread_cache, none⟩
    else
      let lookRes : Option String × Cache :=
        match conversation_id with
        | some cid =>
          if strTruthy cid then
            let g := st.thread_cache.getFull now (cacheKey cid target_agent_name)
            (g.1, g.2.1)
          else (none, st.thread_cache)
        | none => (none, st.thread_cache)
      let thread : Option String :=
        match lookRes.1 with
        | some tid => if strTruthy tid then some tid else none
        | none => none
      let inv := invoke user_text thread
      let drained := drainLoop conversation_id target_agent_name now inv.msgs "" lookRes.2
      match inv.raised with
      | some e =>
        ⟨errorResponse ("Failed to generate response: " ++ e)
           "I'm sorry, I encountered an error trying to process your request.",
         drained.2, some thread⟩
      | none =>
        if strTruthy drained.1 then
          ⟨⟨drained.1, [drained.1], stripEndsWithQ drained.1, none⟩, drained.2, some thread⟩
        else
          ⟨errorResponse "No response from agent"
             "I'm sorry, I couldn't get a response from the agent.",
           drained.2, some thread⟩

/-- A trivial invocation stub used by concrete witnesses. -/
def invNone : String → Option String → InvokeResult := fun _ _ => ⟨[], none⟩

/-- An invocation stub that yields one question-shaped fragment. -/
def invQ : String → Option String → InvokeResult :=
  fun _ _ => ⟨[⟨some "Would you like interior or exterior?", some "T1"⟩], none⟩

/-- A response is well-formed when it is either a success payload (no error,
`messages` the singleton of `text`, `awaiting_user` the stripped-ends-with-?
test, non-empty text) or an error payload (a non-empty error message, a
non-empty user-facing fallback text, and defaulted remaining fields). -/
def wellFormedResponse (r : Response) : Prop :=
  (r.error = none ∧ r.messages = [r.text] ∧ r.awaiting_user = stripEndsWithQ r.text ∧ r.text ≠ "")
  ∨ (∃ e, r.error = some e ∧ e ≠ "" ∧ r.messages = [] ∧ r.awaiting_user = false ∧ r.text ≠ "")

/-- The thread value `respond` derives from the cache lookup (source lines
230-236): the cached thread id when present and truthy, else absent. -/
def threadLookup (c : Cache) (now : Nat) (key : String) : Option String :=
  match (c.getFull now key).1 with
  | some tid => if strTruthy tid then some tid else none
  | none => none

/-! ## Classifier sanity checks and claim theorems -/

example : determineTargetAgent "hello there" = "ProductLookupAgent" := by decide

example : determineTargetAgent "What products do you have?" = "ProductLookupAgent" := by decide

example : determineTargetAgent "track my order status" = "KnowledgeAgent" := by decide

example : determineTargetAgent "what do you offer in shades of blue" = "ProductLookupAgent" := by
  decide


/-- C1: for every input string that, after lower-casing, contains one of the
product override phrases ("what products", "what do you offer", "show me
products"), `_determine_target_agent` returns "ProductLookupAgent",
regardless of the pattern scores and of any policy keywords or policy
override phrases also present. -/
theorem classifier_product_override (s : String)
    (h : hasAnyPhrase overrideProductPhrases (lowerChars s) = true) :
    determineTargetAgent s = "ProductLookupAgent" := by
  simp [determineTargetAgent, h]

theorem classifier_product_override_witness :
    hasAnyPhrase overrideProductPhrases
      (lowerChars "What products do you offer? My paint arrived damaged, I want a refund") = true ∧
    determineTargetAgent
      "What products do you offer? My paint arrived damaged, I want a refund" =
      "ProductLookupAgent" :=
  ⟨by decide, classifier_product_override _ (by decide)⟩

/-- C2: for every input string that, after lower-casing, contains one of the
policy override phrases ("return policy", "warranty", "refund", "damaged"),
the classifier returns "KnowledgeAgent" — except when a product override
phrase is also present, in which case the product override is checked first
and wins. -/
theorem classifier_policy_override (s : String)
    (h : hasAnyPhrase overridePolicyPhrases (lowerChars s) = true) :
    determineTargetAgent s =
      (if hasAnyPhrase overrideProductPhrases (lowerChars s) then "ProductLookupAgent"
       else "KnowledgeAgent") := by
  by_cases hp : hasAnyPhrase overrideProductPhrases (lowerChars s) = true
  · simp [determineTargetAgent, hp]
  · simp only [Bool.not_eq_true] at hp
    simp [determineTargetAgent, hp, h]

theorem classifier_policy_override_witness :
    hasAnyPhrase overridePolicyPhrases (lowerChars "what is your return policy") = true ∧
    determineTargetAgent "what is your return policy" =
      (if hasAnyPhrase overrideProductPhrases (lowerChars "what is your return policy")
       then "ProductLookupAgent" else "KnowledgeAgent") ∧
    determineTargetAgent "what is your return policy" = "KnowledgeAgent" :=
  ⟨by decide, classifier_policy_override _ (by decide), by decide⟩

/-- C3: for every input string matching no override phrase, the classifier
returns "ProductLookupAgent" when the product pattern score strictly exceeds
the policy pattern score, "KnowledgeAgent" when it does not and the policy
score is positive, and "ProductLookupAgent" when both scores are zero (the
documented fallback); being a total function into agent-name strings, it
never raises and returns exactly one agent name. -/
theorem classifier_score_routing (s : String)
    (h1 : hasAnyPhrase overrideProductPhrases (lowerChars s) = false)
    (h2 : hasAnyPhrase overridePolicyPhrases (lowerChars s) = false) :
    determineTargetAgent s =
      (if countMatches productPatterns (lowerChars s) > countMatches policyPatterns (lowerChars s)
       then "ProductLookupAgent"
       else if countMatches policyPatterns (lowerChars s) > 0 then "KnowledgeAgent"
       else "ProductLookupAgent") := by
  simp [determineTargetAgent, h1, h2]

theorem classifier_score_routing_witness :
    (hasAnyPhrase overrideProductPhrases (lowerChars "hello there") = false ∧
     hasAnyPhrase overridePolicyPhrases (lowerChars "hello there") = false) ∧
    determineTargetAgent "hello there" =
      (if countMatches productPatterns (lowerChars "hello there") >
          countMatches policyPatterns (lowerChars "hello there")
       then "ProductLookupAgent"
       else if countMatches policyPatterns (lowerChars "hello there") > 0 then "KnowledgeAgent"
       else "ProductLookupAgent") :=
  ⟨⟨by decide, by decide⟩, classifier_score_routing _ (by decide) (by decide)⟩

/-- C10: the classifier only ever returns "ProductLookupAgent" or
"KnowledgeAgent", never "OrderStatusAgent"; the order-status vocabulary
(`cancel`, `order.*status`, `tracking` and the ship/delivery/track pattern)
sits in the policy pattern set, so such queries route to "KnowledgeAgent"
and the registered OrderStatusAgent is unreachable from intent routing. -/
theorem classifier_no_order_agent :
    (∀ s : String, determineTargetAgent s = "ProductLookupAgent" ∨
        determineTargetAgent s = "KnowledgeAgent") ∧
    [W "cancel", W2 "order" "status", W "tracking"] ∈ policyPatterns ∧
    [W "ship", W "delivery", W "shipping", W "track"] ∈ policyPatterns ∧
    determineTargetAgent "track my order status" = "KnowledgeAgent" := by
  refine ⟨fun s => ?_, by decide, by decide, by decide⟩
  by_cases h1 : hasAnyPhrase overrideProductPhrases (lowerChars s) = true
  · exact Or.inl (by simp [determineTargetAgent, h1])
  simp only [Bool.not_eq_true] at h1
  by_cases h2 : hasAnyPhrase overridePolicyPhrases (lowerChars s) = true
  · exact Or.inr (by simp [determineTargetAgent, h1, h2])
  simp only [Bool.not_eq_true] at h2
  by_cases h3 : countMatches productPatterns (lowerChars s) > countMatches policyPatterns (lowerChars s)
  · exact Or.inl (by simp [determineTargetAgent, h1, h2, h3])
  by_cases h4 : countMatches policyPatterns (lowerChars s) > 0
  · exact Or.inr (by simp [determineTargetAgent, h1, h2, h3, h4])
  · exact Or.inl (by simp [determineTargetAgent, h1, h2, h3, h4])

/-! ## Helper lemmas -/

theorem strNil_append (s : String) : "" ++ s = s := by
  cases s with
  | mk l => rfl

theorem strAppend_nil (s : String) : s ++ "" = s := by
  cases s with
  | mk l =>
    show String.mk (l ++ []) = String.mk l
    rw [List.append_nil]

theorem strAppend_assoc (a b c : String) : a ++ b ++ c = a ++ (b ++ c) := by
  cases a with
  | mk la =>
    cases b with
    | mk lb =>
      cases c with
      | mk lc =>
        show String.mk (la ++ lb ++ lc) = String.mk (la ++ (lb ++ lc))
        rw [List.append_assoc]

theorem strAppend_ne (s t : String) (h : s ≠ "") : s ++ t ≠ "" := by
  cases s with
  | mk ls =>
    cases t with
    | mk lt =>
      intro he
      apply h
      have hd : ls ++ lt = [] := congrArg String.data he
      rcases List.append_eq_nil.mp hd with ⟨h1, _⟩
      rw [show ("" : String) = String.mk [] from rfl]
      exact congrArg String.mk h1

theorem drainLoop_content (conversation_id : Option String) (target : String) (now : Nat) :
    ∀ (msgs : List Msg) (acc : String) (cache : Cache),
      (drainLoop conversation_id target now msgs acc cache).1 = acc ++ concatContents msgs := by
  intro msgs
  induction msgs with
  | nil => intro acc cache; simp [drainLoop, concatContents, strAppend_nil]
  | cons m rest ih =>
    intro acc cache
    cases hc : m.content with
    | none => simp [drainLoop, concatContents, hc, ih]
    | some s =>
      by_cases hs : strTruthy s = true
      · simp [drainLoop, concatContents, hc, hs, ih, strAppend_assoc]
      · simp only [Bool.not_eq_true] at hs
        simp [drainLoop, concatContents, hc, hs, ih]

/-! ## Claim theorems: `respond` error handling and aggregation -/

/-- C4: in the Unconfigured state (`is_configured` false), every `respond`
call returns a response with a non-empty error field and the fallback text,
attempts no agent invocation, and neither reads nor writes the thread cache
(the cache state is returned untouched). -/
theorem respond_unconfigured (st : Orch) (invoke : String → Option String → InvokeResult)
    (now : Nat) (user_text : String) (conversation_id : Option String)
    (h : st.is_configured = false) :
    (respond st invoke now user_text conversation_id).resp.error =
        some "Simple Foundry orchestrator not configured" ∧
    (respond st invoke now user_text conversation_id).resp.text =
        "I'm sorry, the AI service is not properly configured." ∧
    (respond st invoke now user_text conversation_id).threadArg = none ∧
    (respond st invoke now user_text conversation_id).cache = st.thread_cache := by
  simp [respond, h, errorResponse]

theorem respond_unconfigured_witness :
    (⟨["ProductLookupAgent"], false, initThreadCache⟩ : Orch).is_configured = false ∧
    ((respond ⟨["ProductLookupAgent"], false, initThreadCache⟩ invNone 0 "anything"
        (some "conv-1")).resp.error = some "Simple Foundry orchestrator not configured" ∧
     (respond ⟨["ProductLookupAgent"], false, initThreadCache⟩ invNone 0 "anything"
        (some "conv-1")).resp.text = "I'm sorry, the AI service is not properly configured." ∧
     (respond ⟨["ProductLookupAgent"], false, initThreadCache⟩ invNone 0 "anything"
        (some "conv-1")).threadArg = none ∧
     (respond ⟨["ProductLookupAgent"], false, initThreadCache⟩ invNone 0 "anything"
        (some "conv-1")).cache = (⟨["ProductLookupAgent"], false, initThreadCache⟩ : Orch).thread_cache) :=
  ⟨rfl, respond_unconfigured _ _ _ _ _ rfl⟩

/-- C6: for every state, input text, conversation id, and behaviour of the
external agent invocation — including one that raises — `respond` returns a
well-formed response value: any exception is converted into an error message
plus a user-facing fallback text and never propagates (in the embedding,
`respond` is a total function into `Response`-carrying outcomes, and every
branch yields a well-formed payload). -/
theorem respond_total_wellformed (st : Orch) (invoke : String → Option String → InvokeResult)
    (now : Nat) (user_text : String) (conversation_id : Option String) :
    wellFormedResponse (respond st invoke now user_text conversation_id).resp := by
  unfold respond wellFormedResponse
  split
  · right
    refine ⟨_, rfl, ?_, rfl, rfl, ?_⟩
    · decide
    · dsimp only [errorResponse]; decide
  · dsimp only
    split
    · right
      refine ⟨_, rfl, ?_, rfl, rfl, ?_⟩
      · exact strAppend_ne _ _ (strAppend_ne _ _ (by decide))
      · dsimp only [errorResponse]
        exact strAppend_ne _ _ (strAppend_ne _ _ (by decide))
    · split
      · right
        refine ⟨_, rfl, ?_, rfl, rfl, ?_⟩
        · exact strAppend_ne _ _ (by decide)
        · dsimp only [errorResponse]; decide
      · split
        · rename_i hend
          left
          refine ⟨rfl, rfl, rfl, ?_⟩
          simpa [strTruthy] using hend
        · right
          refine ⟨_, rfl, ?_, rfl, rfl, ?_⟩
          · decide
          · dsimp only [errorResponse]; decide

/-- C5: whenever the invocation's yielded fragments concatenate (in arrival
order) to `t` and the invocation does not raise, the call returns
`{text := t, messages := [t], awaiting_user := t.strip().endswith("?")}` if
`t` is non-empty, and the structured "No response from agent" error (with no
retried invocation inside the call — the embedding performs exactly one
invocation) if `t` is empty. -/
theorem respond_aggregation (st : Orch) (invoke : String → Option String → InvokeResult)
    (now : Nat) (user_text : String) (conversation_id : Option String) (t : String)
    (hconf : st.is_configured = true)
    (hag : st.agents.contains (determineTargetAgent user_text) = true)
    (hok : ∀ th, (invoke user_text th).raised = none)
    (hcat : ∀ th, concatContents (invoke user_text th).msgs = t) :
    (respond st invoke now user_text conversation_id).resp =
      (if t = "" then
        errorResponse "No response from agent"
          "I'm sorry, I couldn't get a response from the agent."
       else ⟨t, [t], stripEndsWithQ t, none⟩) := by
  unfold respond
  simp only [hconf, hag, Bool.not_true, Bool.false_eq_true, if_false]
  rw [hok]
  rw [drainLoop_content, hcat, strNil_append]
  by_cases ht : t = ""
  · simp [ht, strTruthy]
  · simp [ht, strTruthy]

theorem respond_aggregation_witness :
    ((⟨["ProductLookupAgent"], true, initThreadCache⟩ : Orch).is_configured = true ∧
     (["ProductLookupAgent"] : List String).contains (determineTargetAgent "hello") = true) ∧
    (respond ⟨["ProductLookupAgent"], true, initThreadCache⟩ invQ 0 "hello" (some "c1")).resp =
      (if ("Would you like interior or exterior?" : String) = "" then
        errorResponse "No response from agent"
          "I'm sorry, I couldn't get a response from the agent."
       else ⟨"Would you like interior or exterior?", ["Would you like interior or exterior?"],
             stripEndsWithQ "Would you like interior or exterior?", none⟩) :=
  ⟨⟨rfl, by decide⟩,
   respond_aggregation ⟨["ProductLookupAgent"], true, initThreadCache⟩ invQ 0 "hello"
     (some "c1") "Would you like interior or exterior?" rfl (by decide)
     (fun _ => rfl)
     (fun _ =>
       (by decide :
         concatContents [⟨some "Would you like interior or exterior?", some "T1"⟩] =
           "Would you like interior or exterior?"))⟩

/-! ## Cache lemmas -/

theorem length_filter_bne_lt (k : String) :
    ∀ l : List (String × String × Nat), l.any (fun e => e.1 == k) = true →
      (l.filter (fun e => e.1 != k)).length < l.length := by
  intro l
  induction l with
  | nil => intro h; simp at h
  | cons x xs ih =>
    intro h
    cases hp : x.1 == k with
    | true =>
      have hb : (x.1 != k) = false := by simp [bne, hp]
      rw [List.filter_cons, hb]
      simp only [Bool.false_eq_true, if_false]
      exact Nat.lt_succ_of_le (List.length_filter_le _ _)
    | false =>
      have hb : (x.1 != k) = true := by simp [bne, hp]
      have hxs : xs.any (fun e => e.1 == k) = true := by simpa [hp] using h
      rw [List.filter_cons, hb]
      simp only [if_pos rfl, List.length_cons]
      exact Nat.succ_lt_succ (ih hxs)

theorem put_entries_sub (c : Cache) (now : Nat) (k v : String) :
    ∀ x ∈ (c.put now k v).1.entries,
      x ∈ c.entries.filter (entryLive c.ttl now) ∨ x = (k, v, now) := by
  intro x hx
  unfold Cache.put at hx
  dsimp only at hx
  split at hx
  · rcases List.mem_append.mp hx with hm | hm
    · exact Or.inl (List.mem_of_mem_filter hm)
    · exact Or.inr (List.mem_singleton.mp hm)
  · split at hx
    · split at hx
      · exact Or.inr (List.mem_singleton.mp hx)
      · rename_i heq
        rcases List.mem_append.mp hx with hm | hm
        · exact Or.inl (heq ▸ List.mem_cons_of_mem _ hm)
        · exact Or.inr (List.mem_singleton.mp hm)
    · rcases List.mem_append.mp hx with hm | hm
      · exact Or.inl hm
      · exact Or.inr (List.mem_singleton.mp hm)

theorem getFull_entries_sub (c : Cache) (now : Nat) (k : String) :
    ∀ x ∈ (c.getFull now k).2.1.entries,
      x ∈ c.entries.filter (entryLive c.ttl now) := by
  intro x hx
  unfold Cache.getFull at hx
  dsimp only at hx
  split at hx
  · rename_i e' hf
    rcases List.mem_append.mp hx with hm | hm
    · exact List.mem_of_mem_filter hm
    · exact (List.mem_singleton.mp hm) ▸ List.mem_of_find?_eq_some hf
  · exact hx

/-! ## Claim theorems: thread cache -/

/-- C7: the thread cache is constructed with capacity 1000 and TTL 3600
seconds; a `put` on a cache within capacity leaves at most 1000 entries; a
`put` of a fresh key into a full, unexpired cache evicts exactly the
least-recently-used entry; and an entry whose age has reached the TTL is
removed by the next cache operation (`get` or `put`), regardless of access
recency. -/
theorem thread_cache_bounds (c : Cache) (now : Nat) (k v k2 : String)
    (hmax : c.maxsize = 1000) (httl : c.ttl = 3600)
    (hlen : c.entries.length ≤ 1000) :
    (initThreadCache.maxsize = 1000 ∧ initThreadCache.ttl = 3600) ∧
    (c.put now k v).1.entries.length ≤ 1000 ∧
    ((∀ e ∈ c.entries, entryLive c.ttl now e = true) →
      c.entries.length = 1000 →
      (∀ e ∈ c.entries, e.1 ≠ k) →
      ∃ lru rest, c.entries = lru :: rest ∧
        (c.put now k v).2 = [(lru.1, lru.2.1)] ∧
        (c.put now k v).1.entries = rest ++ [(k, v, now)]) ∧
    (∀ e ∈ c.entries, e.2.2 + 3600 ≤ now →
      e ∉ (c.getFull now k2).2.1.entries ∧ e ∉ (c.put now k v).1.entries) := by
  refine ⟨⟨rfl, rfl⟩, ?_, ?_, ?_⟩
  · -- capacity bound after put
    have hlivelen : (c.entries.filter (entryLive c.ttl now)).length ≤ 1000 :=
      le_trans (List.length_filter_le _ _) hlen
    unfold Cache.put
    dsimp only
    split
    · rename_i hany
      rw [List.length_append, List.length_singleton]
      have := length_filter_bne_lt k _ hany
      omega
    · split
      · rename_i hfull
        split
        · rw [List.length_singleton]; omega
        · rename_i lru rest heq
          rw [List.length_append, List.length_singleton]
          rw [heq, List.length_cons] at hlivelen
          omega
      · rename_i hfull
        rw [hmax] at hfull
        rw [List.length_append, List.length_singleton]
        omega
  · -- LRU eviction of exactly the least-recently-used entry
    intro hallive hfull hfresh
    have hfil : c.entries.filter (entryLive c.ttl now) = c.entries :=
      List.filter_eq_self.mpr hallive
    have hexp : c.entries.filter (fun e => !entryLive c.ttl now e) = [] := by
      rw [List.filter_eq_nil_iff]
      intro e he
      simp [hallive e he]
    cases hcs : c.entries with
    | nil => rw [hcs] at hfull; simp at hfull
    | cons lru rest =>
      have hany : (lru :: rest).any (fun e => e.1 == k) = false := by
        rw [← hcs, List.any_eq_false]
        intro e he
        simpa using hfresh e he
      have hlen2 : (lru :: rest).length = 1000 := by rw [← hcs]; exact hfull
      have hput : c.put now k v =
          (⟨rest ++ [(k, v, now)], c.maxsize, c.ttl⟩, [(lru.1, lru.2.1)]) := by
        unfold Cache.put
        dsimp only
        rw [hfil, hexp, hcs]
        rw [if_neg (by simp [hany])]
        rw [if_pos (by simp [hmax, hlen2])]
        rfl
      exact ⟨lru, rest, rfl, by rw [hput], by rw [hput]⟩
  · -- TTL purge on the next operation
    intro e he hexp
    have hel : entryLive c.ttl now e = false := by
      simp only [entryLive, httl, decide_eq_false_iff_not, not_lt]
      omega
    constructor
    · intro hmem
      have := List.mem_filter.mp (getFull_entries_sub c now k2 e hmem)
      rw [hel] at this
      exact absurd this.2 (by decide)
    · intro hmem
      rcases put_entries_sub c now k v e hmem with hm | hm
      · have := List.mem_filter.mp hm
        rw [hel] at this
        exact absurd this.2 (by decide)
      · have : e.2.2 = now := by rw [hm]
        omega

theorem thread_cache_bounds_witness :
    (initThreadCache.maxsize = 1000 ∧ initThreadCache.ttl = 3600 ∧
     initThreadCache.entries.length ≤ 1000) ∧
    (initThreadCache.put 0 "c1_ProductLookupAgent" "T1").1.entries.length ≤ 1000 :=
  ⟨⟨rfl, rfl, by decide⟩,
   (thread_cache_bounds initThreadCache 0 "c1_ProductLookupAgent" "T1" "k2"
      rfl rfl (by decide)).2.1⟩

theorem runReleaseHooks_handles (hook : String → Except String Unit) :
    ∀ l : List (String × String),
      (runReleaseHooks hook l).map (fun r => r.1) = l.map (fun p => p.2) := by
  intro l
  induction l with
  | nil => rfl
  | cons p rest ih => simp [runReleaseHooks, ih]

/-- C8: whenever entries are evicted (LRU) or expired (TTL), the release
action is invoked exactly once per removed entry, with the removed thread
handle; a raising release action is captured per item (logged) and never
propagated: the cache state and the returned value of the triggering
`get`/`put` are identical for every release-hook behaviour, including one
that raises on every call. -/
theorem release_hook_isolated (c : Cache) (hook : String → Except String Unit)
    (now : Nat) (k v k2 : String) :
    (c.putH hook now k v).1 = (c.put now k v).1 ∧
    (c.putH hook now k v).2.map (fun r => r.1) = (c.put now k v).2.map (fun p => p.2) ∧
    (c.getH hook now k2).1 = (c.getFull now k2).1 ∧
    (c.getH hook now k2).2.1 = (c.getFull now k2).2.1 ∧
    (c.getH hook now k2).2.2.map (fun r => r.1) = (c.getFull now k2).2.2.map (fun p => p.2) :=
  ⟨rfl, runReleaseHooks_handles hook _, rfl, rfl, runReleaseHooks_handles hook _⟩

/-! ## Round-trip lemmas -/

theorem find?_append_none {α : Type} (p : α → Bool) (Y : List α) :
    ∀ X : List α, (∀ e ∈ X, p e = false) → (X ++ Y).find? p = Y.find? p := by
  intro X
  induction X with
  | nil => intro _; rfl
  | cons x xs ih =>
    intro hX
    have hx : ¬ p x = true := by simp [hX x (List.mem_cons_self x xs)]
    rw [List.cons_append, List.find?_cons_of_neg _ hx]
    exact ih (fun e he => hX e (List.mem_cons_of_mem _ he))

theorem find?_filter_of_keep {α : Type} (p q : α → Bool) :
    ∀ l : List α, (∀ x ∈ l, p x = true → q x = true) →
      (l.filter q).find? p = l.find? p := by
  intro l
  induction l with
  | nil => intro _; rfl
  | cons x xs ih =>
    intro hl
    have hrec := ih (fun e he hp2 => hl e (List.mem_cons_of_mem _ he) hp2)
    cases hp : p x with
    | true =>
      have hq : q x = true := hl x (List.mem_cons_self x xs) hp
      rw [List.filter_cons, hq, if_pos rfl,
        List.find?_cons_of_pos _ hp, List.find?_cons_of_pos _ hp]
    | false =>
      cases hq : q x with
      | true =>
        rw [List.filter_cons, hq, if_pos rfl,
          List.find?_cons_of_neg _ (by simp [hp]), List.find?_cons_of_neg _ (by simp [hp])]
        exact hrec
      | false =>
        rw [List.filter_cons, hq]
        simp only [Bool.false_eq_true, if_false]
        rw [List.find?_cons_of_neg _ (by simp [hp])]
        exact hrec

theorem lookupVal_put (c : Cache) (now : Nat) (k v : String) :
    lookupVal (c.put now k v).1 k = some v := by
  unfold Cache.put lookupVal
  dsimp only
  split
  · rw [find?_append_none _ _ _ ?side]
    case side =>
      intro e he
      have := (List.mem_filter.mp he).2
      simpa [bne] using this
    simp [List.find?]
  · rename_i hany
    have hfalse : (c.entries.filter (entryLive c.ttl now)).any (fun e => e.1 == k) = false :=
      Bool.eq_false_iff.mpr hany
    have hnone : ∀ e ∈ c.entries.filter (entryLive c.ttl now), (e.1 == k) = false := by
      intro e he
      exact Bool.eq_false_iff.mpr (List.any_eq_false.mp hfalse e he)
    split
    · split
      · simp [List.find?]
      · rename_i lru rest heq
        rw [heq] at hnone
        dsimp only
        rw [find?_append_none _ _ _ (fun e he => hnone e (List.mem_cons_of_mem _ he))]
        simp [List.find?]
    · rw [find?_append_none _ _ _ hnone]
      simp [List.find?]

theorem drainLoop_lookup (cid target : String) (now : Nat) (hcid : strTruthy cid = true) :
    ∀ (msgs : List Msg) (acc : String) (cache : Cache),
      lookupVal (drainLoop (some cid) target now msgs acc cache).2 (cacheKey cid target) =
        (match lastThreadId msgs with
         | some t => some t
         | none => lookupVal cache (cacheKey cid target)) := by
  intro msgs
  induction msgs with
  | nil => intro acc cache; rfl
  | cons m rest ih =>
    intro acc cache
    cases hth : m.thread with
    | none =>
      simp only [drainLoop, hth]
      rw [ih]
      cases hrest : lastThreadId rest <;> simp [lastThreadId, hrest, hth]
    | some tid =>
      simp only [drainLoop, hth, hcid, if_true]
      rw [ih]
      cases hrest : lastThreadId rest with
      | some t => simp [lastThreadId, hrest]
      | none => simp [lastThreadId, hrest, hth, lookupVal_put]

theorem getFull_found (c : Cache) (now : Nat) (key h : String)
    (hfind : lookupVal c key = some h)
    (hlive : ∀ e ∈ c.entries, e.1 = key → entryLive c.ttl now e = true) :
    (c.getFull now key).1 = some h := by
  unfold lookupVal at hfind
  cases hf : c.entries.find? (fun e => e.1 == key) with
  | none => rw [hf] at hfind; simp at hfind
  | some e0 =>
    rw [hf] at hfind
    simp only [Option.map_some'] at hfind
    unfold Cache.getFull
    dsimp only
    have hff : (c.entries.filter (entryLive c.ttl now)).find? (fun e => e.1 == key) = some e0 := by
      rw [find?_filter_of_keep]
      · exact hf
      · intro x hx hpx
        exact hlive x hx (by simpa using hpx)
    rw [hff]
    simpa using hfind

theorem threadLookup_some (c : Cache) (now : Nat) (key h : String)
    (hfind : lookupVal c key = some h)
    (hlive : ∀ e ∈ c.entries, e.1 = key → entryLive c.ttl now e = true)
    (hh : h ≠ "") :
    threadLookup c now key = some h := by
  unfold threadLookup
  rw [getFull_found c now key h hfind hlive]
  simp [strTruthy, hh]

theorem respond_threadArg (st : Orch) (invoke : String → Option String → InvokeResult)
    (now : Nat) (t cid : String)
    (hconf : st.is_configured = true)
    (hag : st.agents.contains (determineTargetAgent t) = true)
    (hcid : strTruthy cid = true) :
    (respond st invoke now t (some cid)).threadArg =
      some (threadLookup st.thread_cache now (cacheKey cid (determineTargetAgent t))) := by
  unfold respond threadLookup
  simp only [hconf, hag, Bool.not_true, Bool.false_eq_true, if_false, hcid, if_true]
  split
  · rfl
  · split <;> rfl

theorem respond_cache (st : Orch) (invoke : String → Option String → InvokeResult)
    (now : Nat) (t cid : String)
    (hconf : st.is_configured = true)
    (hag : st.agents.contains (determineTargetAgent t) = true)
    (hcid : strTruthy cid = true) :
    (respond st invoke now t (some cid)).cache =
      (drainLoop (some cid) (determineTargetAgent t) now
        (invoke t
          (threadLookup st.thread_cache now (cacheKey cid (determineTargetAgent t)))).msgs
        "" (st.thread_cache.getFull now (cacheKey cid (determineTargetAgent t))).2.1).2 := by
  unfold respond threadLookup
  simp only [hconf, hag, Bool.not_true, Bool.false_eq_true, if_false, hcid, if_true]
  split
  · rfl
  · split <;> rfl

/-! ## Claim theorem: thread-cache round-trip through `respond` -/

/-- C9: if `respond` is called twice with the same (truthy) conversation id,
both calls route to the same agent, the first call's invocation yields a
thread handle `h` (its last cache write), and the written entry is still
unexpired at the time of the second call (it is not evicted — nothing else
touches the cache in between), then the second call's cache lookup returns
exactly `h` and `respond` passes it as the thread argument of the agent
invocation. -/
theorem respond_thread_roundtrip
    (st : Orch) (inv1 inv2 : String → Option String → InvokeResult)
    (now1 now2 : Nat) (t1 t2 cid h : String)
    (hconf : st.is_configured = true)
    (hcid : cid ≠ "")
    (hag : st.agents.contains (determineTargetAgent t1) = true)
    (hsame : determineTargetAgent t2 = determineTargetAgent t1)
    (hth : ∀ th, lastThreadId (inv1 t1 th).msgs = some h)
    (hh : h ≠ "")
    (hfresh : ∀ e ∈ (respond st inv1 now1 t1 (some cid)).cache.entries,
        e.1 = cacheKey cid (determineTargetAgent t1) →
        now2 < e.2.2 + (respond st inv1 now1 t1 (some cid)).cache.ttl) :
    (respond { st with thread_cache := (respond st inv1 now1 t1 (some cid)).cache }
        inv2 now2 t2 (some cid)).threadArg = some (some h) := by
  have hcidT : strTruthy cid = true := by simp [strTruthy, hcid]
  have hw : lookupVal (respond st inv1 now1 t1 (some cid)).cache
      (cacheKey cid (determineTargetAgent t1)) = some h := by
    rw [respond_cache st inv1 now1 t1 cid hconf hag hcidT]
    rw [drainLoop_lookup cid (determineTargetAgent t1) now1 hcidT]
    rw [hth]
  have hlive : ∀ e ∈ (respond st inv1 now1 t1 (some cid)).cache.entries,
      e.1 = cacheKey cid (determineTargetAgent t1) →
      entryLive (respond st inv1 now1 t1 (some cid)).cache.ttl now2 e = true := by
    intro e he hk
    simp only [entryLive, decide_eq_true_eq]
    exact hfresh e he hk
  rw [respond_threadArg
        { st with thread_cache := (respond st inv1 now1 t1 (some cid)).cache }
        inv2 now2 t2 cid hconf (by rw [hsame]; exact hag) hcidT]
  show some (threadLookup (respond st inv1 now1 t1 (some cid)).cache now2
      (cacheKey cid (determineTargetAgent t2))) = some (some h)
  rw [hsame]
  rw [threadLookup_some _ _ _ h hw hlive hh]

theorem respond_thread_roundtrip_witness :
    ((⟨["ProductLookupAgent"], true, initThreadCache⟩ : Orch).is_configured = true ∧
     ("c1" : String) ≠ "" ∧ ("T1" : String) ≠ "" ∧
     determineTargetAgent "yo" = determineTargetAgent "hi") ∧
    (respond
        { (⟨["ProductLookupAgent"], true, initThreadCache⟩ : Orch) with
          thread_cache :=
            (respond ⟨["ProductLookupAgent"], true, initThreadCache⟩ invQ 0 "hi"
              (some "c1")).cache }
        invNone 10 "yo" (some "c1")).threadArg = some (some "T1") :=
  ⟨⟨rfl, by decide, by decide, by decide⟩,
   respond_thread_roundtrip ⟨["ProductLookupAgent"], true, initThreadCache⟩ invQ invNone
     0 10 "hi" "yo" "c1" "T1" rfl (by decide) (by decide) (by decide)
     (fun _ => rfl) (by decide) (by decide)⟩
